import Mathlib

/-!
Verification of the Azure-Functions-to-ASGI bridge in
`src/server/function_app.py` (the `mcp_endpoint` HTTP trigger together with
`initialize_mcp_app`, and the `receive` / `send` callback channels it hands to
the inner ASGI application).

Modelling conventions, stated once:

* Bytes (`bytes` in the source) are `List Nat`; a Python `str` stays a Lean
  `String`.  `str.encode("latin-1")` maps each character to its code point and
  raises for code points above 255; we model it as an `Except` value whose
  error text stands in for the `UnicodeEncodeError` message.  Bodies given to
  `func.HttpResponse` as `str` are rendered to bytes with `strBytes`.
* `str.lower()` is modelled as ASCII lowering (`Char.toLower`); HTTP header
  names are ASCII tokens, and every concrete instance below is ASCII.
* Time (`asyncio` delays and timeouts) is `ℚ`: the handshake timeout is 10,
  the per-request deadline 30, the disconnect delay `mkRat 1 10` (0.1).
* The inner ASGI application is opaque.  Its behaviour on one request is
  abstracted as the ordered, timestamped list of messages it passes to the
  `send` callback plus an optional natural finish time (`none` = it would run
  forever, as with an SSE stream).  Its lifespan behaviour is abstracted as a
  `LifespanOutcome`: the time at which it sends `lifespan.startup.complete`,
  the time and reason of a `lifespan.startup.failed`, or never answering.
* asyncio is single-threaded and cooperative; requests are modelled as
  executing one at a time, so the `asyncio.Lock` double-check collapses to a
  plain readiness check, and the waiter of `response_complete` cancels the
  ASGI task before any message after the completing one is processed.
* `handshakeCount` is a ghost counter incremented exactly when the source
  would call `initialize_mcp_app`; it exists only to state invariants.
* An exception that propagates out of `mcp_endpoint` uncaught is modelled as
  `Except.error msg`; a returned `func.HttpResponse` as `Except.ok r`.
-/

namespace FunctionApp

abbrev Bytes := List Nat

abbrev Time := ℚ

/-- Rendering of a Python `str` response body to bytes (ASCII range in every
use below, where utf-8 encoding is the code-point map). -/
def strBytes (s : String) : Bytes := s.data.map Char.toNat

/-- Whether every character fits in latin-1 (code point below 256). -/
def latin1Encodable (cs : List Char) : Bool := cs.all (fun c => c.toNat < 256)

/-- `str.encode("latin-1")`: code-point map when every character is below
256, otherwise a `UnicodeEncodeError` (error text is a stand-in). -/
def encodeLatin1 (cs : List Char) : Except String Bytes :=
  if latin1Encodable cs then .ok (cs.map Char.toNat)
  else .error "latin-1 codec cannot encode characters"

/-- `str.lower()` restricted to ASCII case mapping (header names are ASCII
tokens in HTTP). -/
def lowerStr (s : String) : String := String.mk (s.data.map Char.toLower)

/-- The characters after the first occurrence of `c`, or `none` when `c`
does not occur: `url.split(c, 1)[1]` guarded by `c in url`. -/
def afterFirst (c : Char) : List Char → Option (List Char)
  | [] => none
  | x :: xs => if x = c then some xs else afterFirst c xs

/-- An inbound `func.HttpRequest`: method, full URL, headers and raw body. -/
structure HttpRequest where
  method : String
  url : String
  headers : List (String × String)
  body : Bytes
deriving DecidableEq

/-- An outbound `func.HttpResponse`; `headers` is the Python dict as an
ordered association list with pairwise-distinct keys. -/
structure HttpResponse where
  body : Bytes
  status_code : Nat
  headers : List (String × String)
deriving DecidableEq

/-- The ASGI scope dictionary built in `mcp_endpoint` (lines 162-173). -/
structure Scope where
  type : String
  http_version : String
  method : String
  scheme : String
  path : String
  query_string : Bytes
  root_path : String
  headers : List (Bytes × Bytes)
  server : String × Nat
deriving DecidableEq

/-- The header-building loop (lines 150-159): each request header key is
lower-cased and latin-1 encoded, the value latin-1 encoded.  The loop body
sits in its own try/except, so an encoding error keeps the prefix built so
far and drops the failing header and all later ones. -/
def buildScopeHeaders : List (String × String) → List (Bytes × Bytes)
  | [] => []
  | p :: rest =>
    match encodeLatin1 (lowerStr p.1).data, encodeLatin1 p.2.data with
    | .ok kb, .ok vb => (kb, vb) :: buildScopeHeaders rest
    | _, _ => []

/-- RequestTranslator: the scope construction of lines 150-173.  The only
failure mode is latin-1 encoding of the query substring (raised inside the
outer try of line 139, hence surfaced as the 500 error response). -/
def translate (req : HttpRequest) : Except String Scope :=
  match afterFirst (Char.ofNat 63) req.url.data with
  | some q =>
    match encodeLatin1 q with
    | .error e => .error e
    | .ok qs =>
      .ok { type := "http", http_version := "1.1", method := req.method,
            scheme := "http", path := "/mcp", query_string := qs,
            root_path := "", headers := buildScopeHeaders req.headers,
            server := ("localhost", 7071) }
  | none =>
    .ok { type := "http", http_version := "1.1", method := req.method,
          scheme := "http", path := "/mcp", query_string := [],
          root_path := "", headers := buildScopeHeaders req.headers,
          server := ("localhost", 7071) }

/-- Events returned by the bridge's `receive` callback (lines 185-206). -/
inductive ReceiveEvent where
  | httpRequest (body : Bytes) (more_body : Bool)
  | httpDisconnect
deriving DecidableEq

/-- One `receive()` return: the delay awaited inside the call before the
event is handed back. -/
structure ReceiveResult where
  sleep : Time
  event : ReceiveEvent
deriving DecidableEq

/-- The `receive` callback (lines 185-206) over its `receive_called` flag:
the first call returns the full buffered body with `more_body = False`;
every later call sleeps 0.1 and returns `http.disconnect`.  Both branches
return, so the caller is never suspended forever. -/
def receive (body : Bytes) (receive_called : Bool) : Bool × ReceiveResult :=
  if receive_called = false then
    (true, { sleep := 0, event := .httpRequest body false })
  else
    (receive_called, { sleep := mkRat 1 10, event := .httpDisconnect })

/-- Messages the inner application passes to the `send` callback.  `other`
covers any message type the if/elif dispatch of `send` ignores. -/
inductive AsgiSendMsg where
  | responseStart (status : Nat) (headers : List (String × String))
  | responseBody (chunk : Bytes) (more_body : Bool)
  | other (typ : String)
deriving DecidableEq

/-- The per-request collection state of lines 178-182. -/
structure SendState where
  response_started : Bool
  response_status : Nat
  response_headers : List (String × String)
  response_body : Bytes
  response_complete : Bool
deriving DecidableEq

/-- Lines 178-182: fresh collection state for one request. -/
def initSendState : SendState :=
  { response_started := false, response_status := 200,
    response_headers := [], response_body := [],
    response_complete := false }

/-- The `send` callback (lines 208-227) as a state transition.  A body write
happens only for a non-empty chunk (`if body_content:`); `response_complete`
is set when `more_body` is false.  ASGI header byte pairs are modelled at
their decoded `String` level (the source decodes them at assembly time). -/
def sendStep (s : SendState) (m : AsgiSendMsg) : SendState :=
  match m with
  | .responseStart status headers =>
    { s with response_started := true, response_status := status,
             response_headers := headers }
  | .responseBody chunk more_body =>
    let s1 := if chunk ≠ [] then
      { s with response_body := s.response_body ++ chunk } else s
    if more_body = false then { s1 with response_complete := true } else s1
  | .other _ => s

/-- One timestamped message of the inner application's send trace. -/
structure TimedMsg where
  time : Time
  msg : AsgiSendMsg
deriving DecidableEq

/-- Whether a message sets `response_complete` (a body chunk with
`more_body = False`). -/
def completing (m : AsgiSendMsg) : Bool :=
  match m with
  | .responseBody _ false => true
  | _ => false

/-- The chunk a message appends to the body buffer. -/
def chunkOf (m : AsgiSendMsg) : Bytes :=
  match m with
  | .responseBody c _ => c
  | _ => []

/-- Whether a message is an http.response.start event. -/
def isStart (m : AsgiSendMsg) : Bool :=
  match m with
  | .responseStart _ _ => true
  | _ => false

/-- Whether a message is an http.response.body event. -/
def isBody (m : AsgiSendMsg) : Bool :=
  match m with
  | .responseBody _ _ => true
  | _ => false

/-- The collection loop of the bridge: messages are folded through
`sendStep` in emission order; the fold stops once `response_complete` is set
(the `asyncio.wait_for(response_complete.wait(), 30)` waiter wakes and
cancels the task) or once a message would arrive at or after the deadline
(the waiter has already timed out and cancelled the task, lines 243-256). -/
def collectLoop (deadline : Time) : SendState → List TimedMsg → SendState
  | s, [] => s
  | s, tm :: rest =>
    if s.response_complete = true ∨ deadline ≤ tm.time then s
    else collectLoop deadline (sendStep s tm.msg) rest

/-- The messages actually processed: up to and including the first
completing one, and strictly before the deadline. -/
def observedMsgs (deadline : Time) : List TimedMsg → List TimedMsg
  | [] => []
  | tm :: rest =>
    if deadline ≤ tm.time then []
    else if completing tm.msg then [tm]
    else tm :: observedMsgs deadline rest

/-- When `await asyncio.wait_for(response_complete.wait(), 30)` returns: at
the first completing message before the deadline, else at the deadline. -/
def firstCompleteTime (deadline : Time) (ms : List TimedMsg) : Option Time :=
  (ms.find? (fun tm => completing tm.msg && decide (tm.time < deadline))).map
    (fun tm => tm.time)

/-- Result of one bridge run: the collected state plus whether the ASGI task
was cancelled and awaited (lines 251-256: `if not asgi_task.done():
asgi_task.cancel(); await asgi_task`). -/
structure BridgeOutcome where
  collected : SendState
  waitEnd : Time
  cancelRequested : Bool
  awaitedTask : Bool
deriving DecidableEq

/-- StreamBridge: run the collection loop under the 30-unit deadline, then
cancel and await the ASGI task when it has not finished by the time the
waiter returns.  `appFinish` is the task's natural finish time (`none` when
the inner application would run forever). -/
def runBridge (deadline : Time) (ms : List TimedMsg) (appFinish : Option Time) :
    BridgeOutcome :=
  let collected := collectLoop deadline initSendState ms
  let waitEnd := (firstCompleteTime deadline ms).getD deadline
  let taskDone : Bool :=
    match appFinish with
    | some tf => decide (tf ≤ waitEnd)
    | none => false
  { collected := collected, waitEnd := waitEnd,
    cancelRequested := !taskDone, awaitedTask := !taskDone }

/-- Python dict assignment `d[k] = v` on an insertion-ordered association
list: an existing key keeps its position and gets the new value, a new key
is appended. -/
def dictInsert (d : List (String × String)) (k v : String) :
    List (String × String) :=
  if d.any (fun p => p.1 = k) then
    d.map (fun p => if p.1 = k then (k, v) else p)
  else d ++ [(k, v)]

/-- First-match lookup in the association list (Python dict lookup; keys are
pairwise distinct by construction). -/
def dictLookup : List (String × String) → String → Option String
  | [], _ => none
  | p :: rest, k => if p.1 = k then some p.2 else dictLookup rest k

/-- The value of the last entry of `l` carrying key `k`. -/
def lastLookup (l : List (String × String)) (k : String) : Option String :=
  dictLookup l.reverse k

/-- Lines 275-279: `headers_dict = {"Access-Control-Allow-Origin": "*"}`
followed by `headers_dict[name] = value` for every collected header. -/
def buildHeadersDict (collected : List (String × String)) :
    List (String × String) :=
  collected.foldl (fun d p => dictInsert d p.1 p.2)
    [("Access-Control-Allow-Origin", "*")]

/-- ResponseAssembler (lines 274-290): outbound status and body from the
collected state, headers from the dict merge. -/
def assembleResponse (s : SendState) : HttpResponse :=
  { body := s.response_body, status_code := s.response_status,
    headers := buildHeadersDict s.response_headers }

/-- Lines 110-118: the fixed CORS preflight response (no body argument, so
the body is empty). -/
def preflightResponse : HttpResponse :=
  { body := [], status_code := 200,
    headers := [("Access-Control-Allow-Origin", "*"),
                ("Access-Control-Allow-Methods", "GET, POST, OPTIONS"),
                ("Access-Control-Allow-Headers", "Content-Type, Authorization")] }

/-- Lines 120-125: the response when the inner application module failed to
import. -/
def notInitializedResponse : HttpResponse :=
  { body := strBytes "MCP server not initialized", status_code := 500,
    headers := [("Access-Control-Allow-Origin", "*")] }

/-- Lines 292-298: the outer except branch, `f"Error: {str(e)}"`. -/
def errorResponse (msg : String) : HttpResponse :=
  { body := strBytes ("Error: " ++ msg), status_code := 500,
    headers := [("Access-Control-Allow-Origin", "*")] }

/-- The inner application's lifespan behaviour, abstracted as its outcome:
when (if ever) it sends `lifespan.startup.complete` or
`lifespan.startup.failed` through `lifespan_send`. -/
inductive LifespanOutcome where
  | completeAt (t : Time)
  | failAt (t : Time) (reason : String)
  | never
deriving DecidableEq

/-- What one call of `lifespan_receive` (lines 61-66) does. -/
inductive LifespanRecvResult where
  | startupEvent
  | suspendForever
deriving DecidableEq

/-- `lifespan_receive` over its `received_startup` flag: the startup message
is handed out on the first call only; afterwards the call suspends on a
fresh event that is never set. -/
def lifespan_receive (received_startup : Bool) : Bool × LifespanRecvResult :=
  if received_startup = false then (true, .startupEvent)
  else (received_startup, .suspendForever)

/-- Whether `asyncio.wait_for(startup_complete.wait(), 10.0)` times out:
neither a startup-complete nor a startup-failed message sets the event
before 10 time units. -/
def timesOut (b : LifespanOutcome) : Bool :=
  match b with
  | .completeAt t => decide (10 ≤ t)
  | .failAt t _ => decide (10 ≤ t)
  | .never => true

/-- `initialize_mcp_app` (lines 28-100): wait up to 10 units for the
lifespan outcome; a timeout or a startup-failed message raises (so the
global `mcp_asgi_app` assignment of line 98 is never reached), a
startup-complete message within the bound succeeds. -/
def initialize_mcp_app (b : LifespanOutcome) : Except String Unit :=
  match b with
  | .completeAt t =>
    if t < 10 then .ok () else .error "MCP lifespan startup timed out"
  | .failAt t reason =>
    if t < 10 then .error ("MCP lifespan startup failed: " ++ reason)
    else .error "MCP lifespan startup timed out"
  | .never => .error "MCP lifespan startup timed out"

/-- Process-wide state: whether the `task_manager_streamable_http` import
succeeded (`mcp is not None`), whether `mcp_asgi_app` is set (readiness),
and the ghost count of `initialize_mcp_app` invocations. -/
structure ProcState where
  mcpImported : Bool
  mcp_asgi_app : Bool
  handshakeCount : Nat
deriving DecidableEq

/-- The environment one request runs against: the inner application's
lifespan behaviour (used only when the handshake is attempted), its send
trace for this request, and its natural finish time. -/
structure RequestEnv where
  lifespan : LifespanOutcome
  sends : List TimedMsg
  appFinish : Option Time

/-- `mcp_endpoint` (lines 102-298) over one request.  `Except.error` models
an exception escaping the handler uncaught — the lazy initialization block
(lines 128-137) sits before the try of line 139, so a handshake exception
is not converted to a response.  Inside the try, the only modelled
exception source is latin-1 encoding of the query substring; it is caught
by the outer except and yields `errorResponse`. -/
def mcp_endpoint (st : ProcState) (req : HttpRequest) (env : RequestEnv) :
    ProcState × Except String HttpResponse :=
  if req.method = "OPTIONS" then (st, .ok preflightResponse)
  else if st.mcpImported = false then (st, .ok notInitializedResponse)
  else
    let stepInit : ProcState × Except String Unit :=
      if st.mcp_asgi_app = false then
        match initialize_mcp_app env.lifespan with
        | .ok _ =>
          ({ st with mcp_asgi_app := true,
                     handshakeCount := st.handshakeCount + 1 }, .ok ())
        | .error e =>
          ({ st with handshakeCount := st.handshakeCount + 1 }, .error e)
      else (st, .ok ())
    match stepInit with
    | (st1, .error e) => (st1, .error e)
    | (st1, .ok _) =>
      match translate req with
      | .error e => (st1, .ok (errorResponse e))
      | .ok _ =>
        let outcome := runBridge 30 env.sends env.appFinish
        (st1, .ok (assembleResponse outcome.collected))

/-- Sequential processing of a list of requests by one process (asyncio is
single-threaded; requests are serialized). -/
def processRequests (st : ProcState) :
    List (HttpRequest × RequestEnv) → ProcState
  | [] => st
  | (req, env) :: rest => processRequests (mcp_endpoint st req env).1 rest

/-! ### Helper lemmas about the send fold -/

theorem sendStep_body (s : SendState) (m : AsgiSendMsg) :
    (sendStep s m).response_body = s.response_body ++ chunkOf m := by
  cases m with
  | responseStart status headers => simp [sendStep, chunkOf]
  | responseBody c mb =>
    by_cases hc : c = []
    · subst hc
      cases mb <;> simp [sendStep, chunkOf]
    · cases mb <;> simp [sendStep, chunkOf, hc]
  | other t => simp [sendStep, chunkOf]

theorem sendStep_complete (s : SendState) (m : AsgiSendMsg) :
    (sendStep s m).response_complete =
      (s.response_complete || completing m) := by
  cases m with
  | responseStart status headers => simp [sendStep, completing]
  | responseBody c mb =>
    by_cases hc : c = []
    · subst hc
      cases mb <;> simp [sendStep, completing]
    · cases mb <;> simp [sendStep, completing, hc]
  | other t => simp [sendStep, completing]

theorem collectLoop_of_complete (deadline : Time) (s : SendState)
    (ms : List TimedMsg) (h : s.response_complete = true) :
    collectLoop deadline s ms = s := by
  cases ms with
  | nil => rfl
  | cons tm rest => simp [collectLoop, h]

theorem collectLoop_eq_foldl_observed (deadline : Time) (ms : List TimedMsg)
    (s : SendState) (h : s.response_complete = false) :
    collectLoop deadline s ms =
      (observedMsgs deadline ms).foldl (fun s1 tm => sendStep s1 tm.msg) s := by
  induction ms generalizing s with
  | nil => rfl
  | cons tm rest ih =>
    by_cases ht : deadline ≤ tm.time
    · simp [collectLoop, observedMsgs, h, ht]
    · by_cases hcm : completing tm.msg = true
      · have hcomplete : (sendStep s tm.msg).response_complete = true := by
          rw [sendStep_complete, h, hcm]
          rfl
      -- the loop performs one step, then stops because the state is complete
        simp only [collectLoop, observedMsgs, h, if_neg ht, if_pos hcm]
        rw [if_neg (by simp [ht])]
        rw [collectLoop_of_complete deadline _ rest hcomplete]
        rfl
      · have hnc : (sendStep s tm.msg).response_complete = false := by
          rw [sendStep_complete, h]
          simpa using hcm
        simp only [collectLoop, observedMsgs, h, if_neg ht, if_neg hcm]
        rw [if_neg (by simp [ht])]
        rw [ih _ hnc]
        rfl

theorem foldl_sendStep_body (l : List TimedMsg) (s : SendState) :
    (l.foldl (fun s1 tm => sendStep s1 tm.msg) s).response_body =
      s.response_body ++ (l.map (fun tm => chunkOf tm.msg)).flatten := by
  induction l generalizing s with
  | nil => simp
  | cons tm rest ih =>
    simp only [List.foldl_cons, List.map_cons, List.flatten_cons]
    rw [ih, sendStep_body, List.append_assoc]

theorem foldl_sendStep_complete (l : List TimedMsg) (s : SendState) :
    (l.foldl (fun s1 tm => sendStep s1 tm.msg) s).response_complete =
      (s.response_complete || l.any (fun tm => completing tm.msg)) := by
  induction l generalizing s with
  | nil => simp
  | cons tm rest ih =>
    simp only [List.foldl_cons, List.any_cons]
    rw [ih, sendStep_complete, Bool.or_assoc]

theorem observedMsgs_of_no_completing (deadline : Time) (ms : List TimedMsg)
    (h : ∀ tm ∈ ms, tm.time < deadline → completing tm.msg = false) :
    observedMsgs deadline ms =
      ms.takeWhile (fun tm => decide (tm.time < deadline)) := by
  induction ms with
  | nil => rfl
  | cons tm rest ih =>
    by_cases ht : deadline ≤ tm.time
    · simp [observedMsgs, List.takeWhile_cons, ht, not_lt.mpr ht]
    · have hlt : tm.time < deadline := lt_of_not_ge ht
      have hc := h tm (List.mem_cons_self tm rest) hlt
      simp only [observedMsgs]
      rw [if_neg ht, hc, if_neg Bool.false_ne_true]
      rw [ih (fun x hx hxt => h x (List.mem_cons_of_mem tm hx) hxt)]
      simp [List.takeWhile_cons, hlt]

theorem takeWhile_eq_filter_of_sorted (deadline : Time) (ms : List TimedMsg)
    (hs : List.Pairwise (fun a b => a.time ≤ b.time) ms) :
    ms.takeWhile (fun tm => decide (tm.time < deadline)) =
      ms.filter (fun tm => decide (tm.time < deadline)) := by
  induction ms with
  | nil => rfl
  | cons tm rest ih =>
    rcases List.pairwise_cons.mp hs with ⟨hhead, htail⟩
    by_cases hlt : tm.time < deadline
    · simp [List.takeWhile_cons, List.filter_cons, decide_eq_true hlt,
        ih htail]
    · have hge : deadline ≤ tm.time := not_lt.mp hlt
      have hall : ∀ x ∈ rest, ¬ (x.time < deadline) := by
        intro x hx
        exact not_lt.mpr (le_trans hge (hhead x hx))
      simp [List.takeWhile_cons, List.filter_cons, decide_eq_false hlt]
      exact fun a ha => not_lt.mp (hall a ha)

theorem mem_observedMsgs (deadline : Time) (ms : List TimedMsg)
    (tm : TimedMsg) (h : tm ∈ observedMsgs deadline ms) :
    tm ∈ ms ∧ tm.time < deadline := by
  induction ms with
  | nil => simp [observedMsgs] at h
  | cons x rest ih =>
    by_cases ht : deadline ≤ x.time
    · simp [observedMsgs, ht] at h
    · by_cases hcm : completing x.msg = true
      · simp only [observedMsgs, if_neg ht, if_pos hcm,
          List.mem_singleton] at h
        cases h
        exact ⟨List.mem_cons_self _ _, lt_of_not_ge ht⟩
      · simp only [observedMsgs, if_neg ht, if_neg hcm, List.mem_cons] at h
        rcases h with h | h
        · cases h
          exact ⟨List.mem_cons_self _ _, lt_of_not_ge ht⟩
        · rcases ih h with ⟨h1, h2⟩
          exact ⟨List.mem_cons_of_mem x h1, h2⟩

theorem firstCompleteTime_of_no_completing (deadline : Time)
    (ms : List TimedMsg)
    (h : ∀ tm ∈ ms, tm.time < deadline → completing tm.msg = false) :
    firstCompleteTime deadline ms = none := by
  unfold firstCompleteTime
  rw [List.find?_eq_none.mpr]
  · rfl
  · intro tm hm
    by_cases hlt : tm.time < deadline
    · simp [h tm hm hlt]
    · simp [hlt]

/-! ### Helper lemmas about the header dict merge -/

theorem dictLookup_append (a b : List (String × String)) (k : String) :
    dictLookup (a ++ b) k =
      match dictLookup a k with
      | some v => some v
      | none => dictLookup b k := by
  induction a with
  | nil => simp [dictLookup]
  | cons p rest ih =>
    by_cases hk : p.1 = k
    · simp [dictLookup, hk]
    · simpa [dictLookup, hk] using ih

theorem dictLookup_map_ne (rest : List (String × String)) (k v k1 : String)
    (hne : ¬ (k1 = k)) :
    dictLookup (rest.map (fun p => if p.1 = k then (k, v) else p)) k1 =
      dictLookup rest k1 := by
  induction rest with
  | nil => rfl
  | cons q tail ih =>
    by_cases hq : q.1 = k
    · have h1 : ¬ (k = k1) := fun hh => hne hh.symm
      have h2 : ¬ (q.1 = k1) := by rw [hq]; exact h1
      simp only [List.map_cons, if_pos hq, dictLookup, h1, h2, if_false, ih]
    · by_cases hq1 : q.1 = k1
      · simp [dictLookup, hq, hq1, hne]
      · simp [dictLookup, hq, hq1, ih]

theorem dictLookup_dictInsert (d : List (String × String)) (k v k1 : String) :
    dictLookup (dictInsert d k v) k1 =
      if k1 = k then some v else dictLookup d k1 := by
  induction d with
  | nil =>
    by_cases hk : k1 = k
    · simp [dictInsert, dictLookup, hk]
    · have h1 : ¬ (k = k1) := fun hh => hk hh.symm
      simp [dictInsert, dictLookup, hk, h1]
  | cons p rest ih =>
    by_cases hp : p.1 = k
    · have hany : ((p :: rest).any fun p => p.1 = k) = true := by
        simp [List.any_cons, hp]
      by_cases hk1 : k1 = k
      · subst hk1
        simp [dictInsert, hany, dictLookup, hp]
      · have hp1 : ¬ (p.1 = k1) := by
          rw [hp]
          intro hh
          exact hk1 hh.symm
        have hk2 : ¬ (k = k1) := by
          intro hh
          exact hk1 hh.symm
        have hmain : dictInsert (p :: rest) k v =
            (k, v) :: rest.map (fun p => if p.1 = k then (k, v) else p) := by
          simp [dictInsert, hany, hp]
        rw [hmain]
        show (if k = k1 then some v
          else dictLookup (rest.map fun p => if p.1 = k then (k, v) else p)
            k1) = _
        rw [if_neg hk2, dictLookup_map_ne rest k v k1 hk1, if_neg hk1]
        simp [dictLookup, hp1]
    · cases hr : (rest.any fun p => p.1 = k) with
      | true =>
        have hany : ((p :: rest).any fun p => p.1 = k) = true := by
          simp [List.any_cons, hr]
        have hinsert : dictInsert rest k v =
            rest.map (fun p => if p.1 = k then (k, v) else p) := by
          simp [dictInsert, hr]
        by_cases hp1 : p.1 = k1
        · have hk1 : ¬ (k1 = k) := fun hh => hp (hp1.trans hh)
          simp [dictInsert, hany, dictLookup, hp, hp1, hk1]
        · simp only [dictInsert, hany, if_true, List.map_cons, if_neg hp,
            dictLookup, if_neg hp1]
          rw [← hinsert, ih]
      | false =>
        have hany : ((p :: rest).any fun p => p.1 = k) = false := by
          simp [List.any_cons, hp, hr]
        have hinsert : dictInsert rest k v = rest ++ [(k, v)] := by
          simp [dictInsert, hr]
        by_cases hp1 : p.1 = k1
        · have hk1 : ¬ (k1 = k) := fun hh => hp (hp1.trans hh)
          simp only [dictInsert, hany, Bool.false_eq_true, if_false,
            List.cons_append, dictLookup, if_pos hp1, if_neg hk1]
        · simp only [dictInsert, hany, Bool.false_eq_true, if_false,
            List.cons_append, dictLookup, if_neg hp1]
          rw [← hinsert, ih]

theorem dictLookup_foldl_insert (l : List (String × String))
    (d : List (String × String)) (k : String) :
    dictLookup (l.foldl (fun d p => dictInsert d p.1 p.2) d) k =
      match lastLookup l k with
      | some v => some v
      | none => dictLookup d k := by
  induction l generalizing d with
  | nil => simp [lastLookup, dictLookup]
  | cons p rest ih =>
    have hlast : lastLookup (p :: rest) k =
        match lastLookup rest k with
        | some v => some v
        | none => if p.1 = k then some p.2 else none := by
      unfold lastLookup
      rw [List.reverse_cons, dictLookup_append]
      rcases hrev : dictLookup rest.reverse k with _ | v
      · simp [dictLookup]
      · simp
    simp only [List.foldl_cons]
    rw [ih, hlast]
    rcases hrest : lastLookup rest k with _ | v
    · simp only
      rw [dictLookup_dictInsert]
      by_cases hk : p.1 = k
      · simp [hk, eq_comm]
      · have : ¬ (k = p.1) := fun hh => hk hh.symm
        simp [hk, this]
    · simp

theorem dictLookup_buildHeadersDict (collected : List (String × String))
    (k : String) :
    dictLookup (buildHeadersDict collected) k =
      match lastLookup collected k with
      | some v => some v
      | none =>
        if k = "Access-Control-Allow-Origin" then some "*" else none := by
  unfold buildHeadersDict
  rw [dictLookup_foldl_insert]
  rcases lastLookup collected k with _ | v
  · simp only [dictLookup]
    by_cases hk : k = "Access-Control-Allow-Origin"
    · simp [hk]
    · have : ¬ ("Access-Control-Allow-Origin" = k) := fun hh => hk hh.symm
      simp [this, hk]
  · rfl

theorem dictLookup_eq_none_of_forall (d : List (String × String)) (k : String)
    (h : ∀ p ∈ d, ¬ (p.1 = k)) : dictLookup d k = none := by
  induction d with
  | nil => rfl
  | cons p rest ih =>
    have hp := h p (List.mem_cons_self p rest)
    simp only [dictLookup, if_neg hp]
    exact ih (fun q hq => h q (List.mem_cons_of_mem p hq))

/-! ### Further helper lemmas about sendStep and the endpoint -/

theorem sendStep_body_status (s : SendState) (c : Bytes) (mb : Bool) :
    (sendStep s (.responseBody c mb)).response_status = s.response_status := by
  by_cases hc : c = [] <;> cases mb <;> simp [sendStep, hc]

theorem sendStep_body_headers (s : SendState) (c : Bytes) (mb : Bool) :
    (sendStep s (.responseBody c mb)).response_headers =
      s.response_headers := by
  by_cases hc : c = [] <;> cases mb <;> simp [sendStep, hc]

theorem sendStep_id_of_neither (s : SendState) (m : AsgiSendMsg)
    (h1 : isStart m = false) (h2 : isBody m = false) : sendStep s m = s := by
  cases m with
  | responseStart st hs => simp [isStart] at h1
  | responseBody c mb => simp [isBody] at h2
  | other t => rfl

theorem foldl_sendStep_id (l : List TimedMsg) (s : SendState)
    (h : ∀ tm ∈ l, ∀ s1, sendStep s1 tm.msg = s1) :
    l.foldl (fun s1 tm => sendStep s1 tm.msg) s = s := by
  induction l generalizing s with
  | nil => rfl
  | cons tm rest ih =>
    simp only [List.foldl_cons]
    rw [h tm (List.mem_cons_self tm rest) s]
    exact ih s (fun x hx => h x (List.mem_cons_of_mem tm hx))

theorem mcp_endpoint_fst_of_ready (st : ProcState) (req : HttpRequest)
    (env : RequestEnv) (h : st.mcp_asgi_app = true) :
    (mcp_endpoint st req env).1 = st := by
  by_cases hm : req.method = "OPTIONS"
  · simp [mcp_endpoint, hm]
  · by_cases hi : st.mcpImported = false
    · simp [mcp_endpoint, hm, hi]
    · rcases htr : translate req with e | s <;>
        simp [mcp_endpoint, hm, hi, h, htr]

theorem processRequests_of_ready (st : ProcState)
    (l : List (HttpRequest × RequestEnv)) (h : st.mcp_asgi_app = true) :
    processRequests st l = st := by
  induction l with
  | nil => rfl
  | cons p rest ih =>
    rcases p with ⟨req, env⟩
    show processRequests (mcp_endpoint st req env).1 rest = st
    rw [mcp_endpoint_fst_of_ready st req env h]
    exact ih

theorem buildScopeHeaders_total (hs : List (String × String))
    (h : ∀ p ∈ hs, latin1Encodable (lowerStr p.1).data = true ∧
      latin1Encodable p.2.data = true) :
    buildScopeHeaders hs =
      hs.map (fun p =>
        ((lowerStr p.1).data.map Char.toNat, p.2.data.map Char.toNat)) := by
  induction hs with
  | nil => rfl
  | cons p rest ih =>
    rcases h p (List.mem_cons_self p rest) with ⟨hk, hv⟩
    show (match encodeLatin1 (lowerStr p.1).data, encodeLatin1 p.2.data with
      | .ok kb, .ok vb => (kb, vb) :: buildScopeHeaders rest
      | _, _ => []) = _
    rw [encodeLatin1, if_pos hk, encodeLatin1, if_pos hv]
    simp only [List.map_cons]
    rw [ih (fun q hq => h q (List.mem_cons_of_mem p hq))]

/-! ### Claim theorems -/

/-- C3: for every request body B, the first `receive()` call returns an
http.request event whose body is byte-identical to B with
`more_body = false` (and sets the flag), and every subsequent call (flag
already set) waits the fixed 0.1 delay and returns an http.disconnect
event.  Both branches of `receive` return a value, so no call suspends the
caller forever. -/
theorem c3_receive_round_trip (B : Bytes) :
    receive B false =
      (true, { sleep := 0, event := .httpRequest B false }) ∧
    receive B true =
      (true, { sleep := mkRat 1 10, event := .httpDisconnect }) :=
  ⟨rfl, rfl⟩

/-- C5: an OPTIONS request always yields the fixed preflight response
(status 200, exactly the three CORS headers, empty body) and leaves the
process state untouched, for every readiness state and every request
environment — so neither the handshake nor the inner application is
invoked. -/
theorem c5_options_preflight (st : ProcState) (req : HttpRequest)
    (env : RequestEnv) (h : req.method = "OPTIONS") :
    mcp_endpoint st req env =
      (st, .ok { body := [], status_code := 200,
                 headers :=
                   [("Access-Control-Allow-Origin", "*"),
                    ("Access-Control-Allow-Methods", "GET, POST, OPTIONS"),
                    ("Access-Control-Allow-Headers",
                     "Content-Type, Authorization")] }) := by
  simp [mcp_endpoint, h, preflightResponse]

/-- C5 witness: a concrete OPTIONS request in a process with no import and
no readiness. -/
theorem c5_witness :
    (HttpRequest.mk "OPTIONS" "http://x/api/mcp" [] []).method = "OPTIONS" ∧
    mcp_endpoint ⟨false, false, 7⟩
        (HttpRequest.mk "OPTIONS" "http://x/api/mcp" [] [])
        ⟨.never, [], none⟩ =
      (⟨false, false, 7⟩,
       .ok { body := [], status_code := 200,
             headers :=
               [("Access-Control-Allow-Origin", "*"),
                ("Access-Control-Allow-Methods", "GET, POST, OPTIONS"),
                ("Access-Control-Allow-Headers",
                 "Content-Type, Authorization")] }) :=
  ⟨rfl, c5_options_preflight _ _ _ rfl⟩

/-- C10: a non-OPTIONS request in a process whose inner-application module
failed to import returns status 500 with body "MCP server not initialized"
and only the CORS origin header; the state is unchanged (no handshake
attempt) and the environment is irrelevant (no callback channel used). -/
theorem c10_import_failed (st : ProcState) (req : HttpRequest)
    (env : RequestEnv) (hm : req.method ≠ "OPTIONS")
    (hi : st.mcpImported = false) :
    mcp_endpoint st req env =
      (st, .ok { body := strBytes "MCP server not initialized",
                 status_code := 500,
                 headers := [("Access-Control-Allow-Origin", "*")] }) := by
  simp [mcp_endpoint, hm, hi, notInitializedResponse]

/-- C10 witness: a concrete POST in a process where the import failed. -/
theorem c10_witness :
    ((HttpRequest.mk "POST" "http://x/api/mcp" [] []).method ≠ "OPTIONS" ∧
     (ProcState.mk false false 0).mcpImported = false) ∧
    mcp_endpoint ⟨false, false, 0⟩ (HttpRequest.mk "POST" "http://x/api/mcp" [] [])
        ⟨.never, [], none⟩ =
      (⟨false, false, 0⟩,
       .ok { body := strBytes "MCP server not initialized",
             status_code := 500,
             headers := [("Access-Control-Allow-Origin", "*")] }) :=
  ⟨⟨by decide, rfl⟩, c10_import_failed _ _ _ (by decide) rfl⟩

/-- C1 counterexample: with the handshake never answered, the endpoint does
not return any 500 response — a request in a not-yet-ready process makes
the timeout exception escape the handler uncaught (the lazy initialization
of lines 128-137 sits before the try of line 139), contradicting the claim
that the error is caught at the outermost request-handling boundary and
converted to the fixed error shape. -/
theorem c1_counterexample :
    (mcp_endpoint ⟨true, false, 0⟩ (HttpRequest.mk "GET" "http://x/api/mcp" [] [])
        ⟨.never, [], none⟩).2 =
      .error "MCP lifespan startup timed out" ∧
    ((mcp_endpoint ⟨true, false, 0⟩ (HttpRequest.mk "GET" "http://x/api/mcp" [] [])
        ⟨.never, [], none⟩).2).isOk = false :=
  ⟨rfl, rfl⟩

/-- C1 amended: when the handshake does not complete within the 10-unit
bound, a non-OPTIONS request in a not-yet-ready process with the module
imported raises an exception whose message identifies the timeout; the
exception escapes the handler uncaught instead of becoming a 500 response,
and readiness stays unset (only the attempt counter advances), so the next
request re-attempts the handshake. -/
theorem c1_handshake_timeout_escapes (st : ProcState) (req : HttpRequest)
    (env : RequestEnv) (hm : req.method ≠ "OPTIONS")
    (hi : st.mcpImported = true) (hr : st.mcp_asgi_app = false)
    (ht : timesOut env.lifespan = true) :
    mcp_endpoint st req env =
      ({ st with handshakeCount := st.handshakeCount + 1 },
       .error "MCP lifespan startup timed out") := by
  have hinit : initialize_mcp_app env.lifespan =
      .error "MCP lifespan startup timed out" := by
    cases hb : env.lifespan with
    | completeAt t =>
      rw [hb] at ht
      simp only [timesOut, decide_eq_true_eq] at ht
      simp [initialize_mcp_app, not_lt.mpr ht]
    | failAt t r =>
      rw [hb] at ht
      simp only [timesOut, decide_eq_true_eq] at ht
      simp [initialize_mcp_app, not_lt.mpr ht]
    | never => rfl
  simp [mcp_endpoint, hm, hi, hr, hinit]

/-- C1 witness for the amended statement: concrete not-yet-ready state and
a handshake that never answers. -/
theorem c1_witness :
    ((HttpRequest.mk "GET" "http://x/api/mcp" [] []).method ≠ "OPTIONS" ∧
     (ProcState.mk true false 3).mcpImported = true ∧
     (ProcState.mk true false 3).mcp_asgi_app = false ∧
     timesOut (RequestEnv.mk .never [] none).lifespan = true) ∧
    mcp_endpoint ⟨true, false, 3⟩ (HttpRequest.mk "GET" "http://x/api/mcp" [] [])
        ⟨.never, [], none⟩ =
      (⟨true, false, 4⟩, .error "MCP lifespan startup timed out") :=
  ⟨⟨by decide, rfl, rfl, rfl⟩,
   c1_handshake_timeout_escapes _ _ _ (by decide) rfl rfl rfl⟩

/-- C6: the readiness lifecycle.  (1) Initialization succeeds only when the
lifespan sends startup-complete within the 10-unit bound, so readiness is
set only on that event.  (2) A request can leave readiness set only if it
was already set or the handshake succeeded — timeout and startup-failed
leave it unset.  (3) While unset (module imported, non-OPTIONS request) the
next request re-attempts: the invocation counter advances by one.  (4) Once
set, a request changes nothing — zero handshake attempts.  (5) Hence from a
fresh process, after one successful request the counter is 1 and stays 1
across any list of further requests. -/
theorem c6_readiness_lifecycle :
    (∀ b : LifespanOutcome, initialize_mcp_app b = .ok () →
      ∃ t, b = .completeAt t ∧ t < 10) ∧
    (∀ (st : ProcState) (req : HttpRequest) (env : RequestEnv),
      (mcp_endpoint st req env).1.mcp_asgi_app = true →
      st.mcp_asgi_app = true ∨ initialize_mcp_app env.lifespan = .ok ()) ∧
    (∀ (st : ProcState) (req : HttpRequest) (env : RequestEnv),
      st.mcpImported = true → st.mcp_asgi_app = false →
      req.method ≠ "OPTIONS" →
      (mcp_endpoint st req env).1.handshakeCount = st.handshakeCount + 1) ∧
    (∀ (st : ProcState) (req : HttpRequest) (env : RequestEnv),
      st.mcp_asgi_app = true → (mcp_endpoint st req env).1 = st) ∧
    (∀ (req : HttpRequest) (env : RequestEnv) (t : Time)
      (l : List (HttpRequest × RequestEnv)),
      req.method ≠ "OPTIONS" → env.lifespan = .completeAt t → t < 10 →
      (processRequests
        (mcp_endpoint ⟨true, false, 0⟩ req env).1 l).handshakeCount = 1) := by
  have hfst : ∀ (st : ProcState) (req : HttpRequest) (env : RequestEnv),
      st.mcpImported = true → st.mcp_asgi_app = false →
      req.method ≠ "OPTIONS" →
      (mcp_endpoint st req env).1 =
        (match initialize_mcp_app env.lifespan with
         | .ok _ => { st with mcp_asgi_app := true,
                              handshakeCount := st.handshakeCount + 1 }
         | .error _ => { st with handshakeCount := st.handshakeCount + 1 }) := by
    intro st req env hi hr hm
    rcases hinit : initialize_mcp_app env.lifespan with e | u
    · simp [mcp_endpoint, hm, hi, hr, hinit]
    · simp [mcp_endpoint, hm, hi, hr, hinit]
      cases translate req <;> rfl
  refine ⟨?_, ?_, ?_, ?_, ?_⟩
  · intro b hb
    cases b with
    | completeAt t =>
      by_cases hlt : t < 10
      · exact ⟨t, rfl, hlt⟩
      · simp [initialize_mcp_app, hlt] at hb
    | failAt t r =>
      by_cases hlt : t < 10 <;> simp [initialize_mcp_app, hlt] at hb
    | never => simp [initialize_mcp_app] at hb
  · intro st req env h
    by_cases hr : st.mcp_asgi_app = true
    · exact Or.inl hr
    · have hr2 : st.mcp_asgi_app = false := by
        cases hready : st.mcp_asgi_app
        · rfl
        · exact absurd hready hr
      by_cases hm : req.method = "OPTIONS"
      · rw [show (mcp_endpoint st req env).1 = st by simp [mcp_endpoint, hm]]
          at h
        exact Or.inl h
      · by_cases hi : st.mcpImported = true
        · rw [hfst st req env hi hr2 hm] at h
          rcases hinit : initialize_mcp_app env.lifespan with e | u
          · rw [hinit] at h
            simp only [] at h
            rw [hr2] at h
            exact absurd h (by simp)
          · exact Or.inr rfl
        · have hi2 : st.mcpImported = false := by
            cases himp : st.mcpImported
            · rfl
            · exact absurd himp hi
          rw [show (mcp_endpoint st req env).1 = st by
            simp [mcp_endpoint, hm, hi2]] at h
          exact Or.inl h
  · intro st req env hi hr hm
    rw [hfst st req env hi hr hm]
    rcases initialize_mcp_app env.lifespan with e | u <;> rfl
  · exact fun st req env h => mcp_endpoint_fst_of_ready st req env h
  · intro req env t l hm henv hlt
    have hinit : initialize_mcp_app env.lifespan = .ok () := by
      rw [henv]
      simp [initialize_mcp_app, hlt]
    have h1 : (mcp_endpoint ⟨true, false, 0⟩ req env).1 =
        ⟨true, true, 1⟩ := by
      rw [hfst ⟨true, false, 0⟩ req env rfl rfl hm, hinit]
    rw [h1, processRequests_of_ready ⟨true, true, 1⟩ l rfl]

/-- C6 witness: a fresh process, one request whose handshake completes at
time 1, then two further requests with a dead environment — the counter is
1 throughout. -/
theorem c6_witness :
    ((HttpRequest.mk "POST" "http://x/api/mcp" [] []).method ≠ "OPTIONS" ∧
     (RequestEnv.mk (.completeAt 1) [] none).lifespan = .completeAt 1 ∧
     (1 : Time) < 10) ∧
    (processRequests
      (mcp_endpoint ⟨true, false, 0⟩ (HttpRequest.mk "POST" "http://x/api/mcp" [] [])
        ⟨.completeAt 1, [], none⟩).1
      [(HttpRequest.mk "GET" "http://x/api/mcp" [] [], ⟨.never, [], none⟩),
       (HttpRequest.mk "POST" "http://x/api/mcp" [] [],
        ⟨.never, [], none⟩)]).handshakeCount = 1 :=
  ⟨⟨by decide, rfl, by decide⟩,
   c6_readiness_lifecycle.2.2.2.2 _ _ 1 _ (by decide) rfl (by decide)⟩

/-- C9: when the deadline elapses before any http.response.start is
observed — under the protocol-ordering invariant of §3 that a start event
precedes (in time) any body event — the bridge does not fail: the collected
state is exactly the default (status 200, empty body, incomplete), and the
assembled response is status 200 with an empty body and only the CORS
origin header. -/
theorem c9_default_on_timeout_before_start (ms : List TimedMsg)
    (appFinish : Option Time)
    (hstart : ∀ tm ∈ ms, tm.time < 30 → isStart tm.msg = false)
    (hinv : ∀ tm ∈ ms, isBody tm.msg = true →
      ∃ tm2 ∈ ms, isStart tm2.msg = true ∧ tm2.time ≤ tm.time) :
    (runBridge 30 ms appFinish).collected = initSendState ∧
    assembleResponse (runBridge 30 ms appFinish).collected =
      { body := [], status_code := 200,
        headers := [("Access-Control-Allow-Origin", "*")] } := by
  have hnobody : ∀ tm ∈ ms, tm.time < 30 → isBody tm.msg = false := by
    intro tm hmem hlt
    cases hb : isBody tm.msg
    · rfl
    · rcases hinv tm hmem hb with ⟨tm2, hmem2, hs2, hle2⟩
      have := hstart tm2 hmem2 (lt_of_le_of_lt hle2 hlt)
      rw [hs2] at this
      exact absurd this (by simp)
  have hid : ∀ tm ∈ observedMsgs 30 ms, ∀ s1, sendStep s1 tm.msg = s1 := by
    intro tm hmem s1
    rcases mem_observedMsgs 30 ms tm hmem with ⟨hin, hlt⟩
    exact sendStep_id_of_neither s1 tm.msg (hstart tm hin hlt)
      (hnobody tm hin hlt)
  have hcollected : (runBridge 30 ms appFinish).collected = initSendState := by
    show collectLoop 30 initSendState ms = initSendState
    rw [collectLoop_eq_foldl_observed 30 ms initSendState rfl]
    exact foldl_sendStep_id _ _ hid
  exact ⟨hcollected, by rw [hcollected]; rfl⟩

/-- C9 witness: a trace whose only events (a late start and a late body
chunk) arrive after the deadline. -/
theorem c9_witness :
    ((∀ tm ∈ [TimedMsg.mk 35 (.responseStart 404 []),
              TimedMsg.mk 36 (.responseBody [120] true)],
        tm.time < 30 → isStart tm.msg = false) ∧
     (∀ tm ∈ [TimedMsg.mk 35 (.responseStart 404 []),
              TimedMsg.mk 36 (.responseBody [120] true)],
        isBody tm.msg = true →
        ∃ tm2 ∈ [TimedMsg.mk 35 (.responseStart 404 []),
                 TimedMsg.mk 36 (.responseBody [120] true)],
          isStart tm2.msg = true ∧ tm2.time ≤ tm.time)) ∧
    assembleResponse (runBridge 30
        [TimedMsg.mk 35 (.responseStart 404 []),
         TimedMsg.mk 36 (.responseBody [120] true)] none).collected =
      { body := [], status_code := 200,
        headers := [("Access-Control-Allow-Origin", "*")] } :=
  ⟨⟨by decide, by decide⟩,
   (c9_default_on_timeout_before_start _ none (by decide) (by decide)).2⟩

/-- C2: when the inner application is still emitting (no completing chunk
before the 30-unit deadline, at least one message at or past it, and a task
that does not finish by the deadline), the collected body is the ordered
concatenation of exactly the chunks sent strictly before the deadline —
chunks sent at or after expiry (that is, after cancellation) are not
incorporated — the ASGI task receives the cancellation request and is
awaited, and the response is never marked complete. -/
theorem c2_deadline_truncation (ms : List TimedMsg) (appFinish : Option Time)
    (hsorted : List.Pairwise (fun a b => a.time ≤ b.time) ms)
    (hnc : ∀ tm ∈ ms, tm.time < 30 → completing tm.msg = false)
    (_hpast : ∃ tm ∈ ms, (30 : Time) ≤ tm.time)
    (hfin : ∀ tf, appFinish = some tf → (30 : Time) < tf) :
    (runBridge 30 ms appFinish).collected.response_body =
      ((ms.filter (fun tm => decide (tm.time < 30))).map
        (fun tm => chunkOf tm.msg)).flatten ∧
    (runBridge 30 ms appFinish).cancelRequested = true ∧
    (runBridge 30 ms appFinish).awaitedTask = true ∧
    (runBridge 30 ms appFinish).collected.response_complete = false := by
  have hobs : observedMsgs 30 ms =
      ms.filter (fun tm => decide (tm.time < 30)) := by
    rw [observedMsgs_of_no_completing 30 ms hnc,
      takeWhile_eq_filter_of_sorted 30 ms hsorted]
  have hcollected : (runBridge 30 ms appFinish).collected =
      (ms.filter (fun tm => decide (tm.time < 30))).foldl
        (fun s1 tm => sendStep s1 tm.msg) initSendState := by
    show collectLoop 30 initSendState ms = _
    rw [collectLoop_eq_foldl_observed 30 ms initSendState rfl, hobs]
  have hcancel : (runBridge 30 ms appFinish).cancelRequested = true := by
    show (!(match appFinish with
      | some tf => decide (tf ≤ (firstCompleteTime 30 ms).getD 30)
      | none => false)) = true
    rw [firstCompleteTime_of_no_completing 30 ms hnc]
    cases hf : appFinish with
    | none => rfl
    | some tf =>
      have := hfin tf hf
      simp [Option.getD, not_le.mpr this]
  refine ⟨?_, hcancel, hcancel, ?_⟩
  · rw [hcollected, foldl_sendStep_body]
    rfl
  · rw [hcollected, foldl_sendStep_complete]
    have hany : (ms.filter (fun tm => decide (tm.time < 30))).any
        (fun tm => completing tm.msg) = false := by
      rw [List.any_eq_false]
      intro tm hmem
      rcases List.mem_filter.mp hmem with ⟨hin, hdec⟩
      rw [hnc tm hin (of_decide_eq_true hdec)]
      simp
    rw [hany]
    rfl

/-- C2 witness: two moreBody=true chunks, one before and one after the
deadline; the body keeps only the first and the task is cancelled. -/
theorem c2_witness :
    (List.Pairwise (fun a b => a.time ≤ b.time)
        [TimedMsg.mk 5 (.responseBody [104] true),
         TimedMsg.mk 40 (.responseBody [105] true)] ∧
     (∀ tm ∈ [TimedMsg.mk 5 (.responseBody [104] true),
              TimedMsg.mk 40 (.responseBody [105] true)],
        tm.time < 30 → completing tm.msg = false) ∧
     (∃ tm ∈ [TimedMsg.mk 5 (.responseBody [104] true),
              TimedMsg.mk 40 (.responseBody [105] true)],
        (30 : Time) ≤ tm.time)) ∧
    (runBridge 30 [TimedMsg.mk 5 (.responseBody [104] true),
        TimedMsg.mk 40 (.responseBody [105] true)]
        none).collected.response_body =
      (([TimedMsg.mk 5 (.responseBody [104] true),
         TimedMsg.mk 40 (.responseBody [105] true)].filter
          (fun tm => decide (tm.time < 30))).map
        (fun tm => chunkOf tm.msg)).flatten ∧
    (runBridge 30 [TimedMsg.mk 5 (.responseBody [104] true),
        TimedMsg.mk 40 (.responseBody [105] true)] none).cancelRequested =
      true :=
  ⟨⟨by decide, by decide, by decide⟩,
   (c2_deadline_truncation _ none (by decide) (by decide) (by decide)
      (fun tf h => nomatch h)).1,
   (c2_deadline_truncation _ none (by decide) (by decide) (by decide)
      (fun tf h => nomatch h)).2.1⟩

/-- C4 counterexample: an inner application that emits exactly one start
event and one completing chunk, but whose start headers carry an
Access-Control-Allow-Origin entry, makes the assembled headers carry that
entry's value — the response does not include the allow-origin * pair, so
the claim fails as universally stated. -/
theorem c4_counterexample :
    dictLookup (assembleResponse (runBridge 30
        [TimedMsg.mk 1 (.responseStart 200
           [("Access-Control-Allow-Origin", "https://evil.example")]),
         TimedMsg.mk 2 (.responseBody [111, 107] false)]
        (some 3)).collected).headers "Access-Control-Allow-Origin" =
      some "https://evil.example" ∧
    (some "https://evil.example" : Option String) ≠ some "*" :=
  ⟨by decide, by decide⟩

/-- C4 amended: for a run delivering exactly one ResponseStartEvent (status
S, headers H) followed by one completing ResponseBodyEvent (chunk C) before
the deadline, the assembled response has status S and body C; its headers
carry allow-origin * provided H itself contains no entry named
Access-Control-Allow-Origin (such an entry overrides the preset value in
the dict merge — the correction forced by the counterexample). -/
theorem c4_well_behaved_run (S : Nat) (H : List (String × String))
    (C : Bytes) (t1 t2 : Time) (appFinish : Option Time)
    (h1 : t1 < 30) (h2 : t2 < 30)
    (hH : ∀ p ∈ H, ¬ (p.1 = "Access-Control-Allow-Origin")) :
    (assembleResponse (runBridge 30
        [TimedMsg.mk t1 (.responseStart S H),
         TimedMsg.mk t2 (.responseBody C false)] appFinish).collected).status_code
      = S ∧
    (assembleResponse (runBridge 30
        [TimedMsg.mk t1 (.responseStart S H),
         TimedMsg.mk t2 (.responseBody C false)] appFinish).collected).body
      = C ∧
    dictLookup (assembleResponse (runBridge 30
        [TimedMsg.mk t1 (.responseStart S H),
         TimedMsg.mk t2 (.responseBody C false)] appFinish).collected).headers
      "Access-Control-Allow-Origin" = some "*" := by
  have hs1 : collectLoop 30 initSendState
      [TimedMsg.mk t1 (.responseStart S H),
       TimedMsg.mk t2 (.responseBody C false)] =
      sendStep (sendStep initSendState (.responseStart S H))
        (.responseBody C false) := by
    show (if initSendState.response_complete = true ∨ (30 : Time) ≤ t1
      then initSendState
      else collectLoop 30 (sendStep initSendState (.responseStart S H))
        [TimedMsg.mk t2 (.responseBody C false)]) = _
    rw [if_neg (by simp [initSendState, not_le.mpr h1])]
    show (if (sendStep initSendState (.responseStart S H)).response_complete
        = true ∨ (30 : Time) ≤ t2
      then sendStep initSendState (.responseStart S H)
      else collectLoop 30 (sendStep (sendStep initSendState
        (.responseStart S H)) (.responseBody C false)) []) = _
    rw [if_neg (by simp [sendStep, initSendState, not_le.mpr h2])]
    rfl
  have hcoll : (runBridge 30
      [TimedMsg.mk t1 (.responseStart S H),
       TimedMsg.mk t2 (.responseBody C false)] appFinish).collected =
      sendStep (sendStep initSendState (.responseStart S H))
        (.responseBody C false) := hs1
  rw [assembleResponse, hcoll]
  refine ⟨?_, ?_, ?_⟩
  · rw [sendStep_body_status]
    rfl
  · rw [sendStep_body]
    rfl
  · rw [sendStep_body_headers]
    show dictLookup (buildHeadersDict H) "Access-Control-Allow-Origin"
      = some "*"
    rw [dictLookup_buildHeadersDict]
    have hnone : lastLookup H "Access-Control-Allow-Origin" = none := by
      apply dictLookup_eq_none_of_forall
      intro p hp
      exact hH p (List.mem_reverse.mp hp)
    rw [hnone]
    simp

/-- C4 witness: status 201, chunk "ok", one innocuous start header. -/
theorem c4_witness :
    ((1 : Time) < 30 ∧ (2 : Time) < 30 ∧
     (∀ p ∈ [("content-type", "application/json")],
        ¬ (p.1 = "Access-Control-Allow-Origin"))) ∧
    (assembleResponse (runBridge 30
        [TimedMsg.mk 1 (.responseStart 201
           [("content-type", "application/json")]),
         TimedMsg.mk 2 (.responseBody [111, 107] false)]
        (some 3)).collected).status_code = 201 ∧
    (assembleResponse (runBridge 30
        [TimedMsg.mk 1 (.responseStart 201
           [("content-type", "application/json")]),
         TimedMsg.mk 2 (.responseBody [111, 107] false)]
        (some 3)).collected).body = [111, 107] ∧
    dictLookup (assembleResponse (runBridge 30
        [TimedMsg.mk 1 (.responseStart 201
           [("content-type", "application/json")]),
         TimedMsg.mk 2 (.responseBody [111, 107] false)]
        (some 3)).collected).headers "Access-Control-Allow-Origin" =
      some "*" :=
  ⟨⟨by decide, by decide, by decide⟩,
   c4_well_behaved_run 201 [("content-type", "application/json")]
     [111, 107] 1 2 (some 3) (by decide) (by decide) (by decide)⟩

/-- C7 counterexample: a collected header list containing an
Access-Control-Allow-Origin entry overrides the preset * value in the
merged dict, so the merge is not additive and the CORS origin value is not
unchanged. -/
theorem c7_counterexample :
    buildHeadersDict [("Access-Control-Allow-Origin", "null")] =
      [("Access-Control-Allow-Origin", "null")] ∧
    dictLookup (buildHeadersDict [("Access-Control-Allow-Origin", "null")])
      "Access-Control-Allow-Origin" ≠ some "*" :=
  ⟨by decide, by decide⟩

/-- C7 amended: the merged header dict always contains the
Access-Control-Allow-Origin key, but the merge is last-writer-wins per
key, not additive: the value at any key is the value of the last collected
header with that name when one exists (so a collected allow-origin entry
overrides the preset *, and a duplicated collected name keeps only its last
value), and at the allow-origin key it is * only when no collected header
carries that name. -/
theorem c7_merge_last_writer_wins (hs : List (String × String))
    (k : String) :
    dictLookup (buildHeadersDict hs) k =
      (match lastLookup hs k with
       | some v => some v
       | none =>
         if k = "Access-Control-Allow-Origin" then some "*" else none) ∧
    dictLookup (buildHeadersDict hs) "Access-Control-Allow-Origin" ≠
      none := by
  refine ⟨dictLookup_buildHeadersDict hs k, ?_⟩
  rw [dictLookup_buildHeadersDict]
  rcases lastLookup hs "Access-Control-Allow-Origin" with _ | v <;> simp

/-- C8 counterexample: translation is not total — a query character outside
latin-1 makes the encoding raise, and the request (here in a ready process,
with an inner application that would answer 201 "ok") yields the 500 error
response instead of a translated run. -/
theorem c8_counterexample :
    translate (HttpRequest.mk "POST" "http://x/api/mcp?x=€" [] []) =
      .error "latin-1 codec cannot encode characters" ∧
    (mcp_endpoint ⟨true, true, 1⟩
        (HttpRequest.mk "POST" "http://x/api/mcp?x=€" [] [])
        ⟨.never,
         [TimedMsg.mk 1 (.responseStart 201 []),
          TimedMsg.mk 2 (.responseBody [111, 107] false)], some 3⟩).2 =
      .ok (errorResponse "latin-1 codec cannot encode characters") ∧
    (errorResponse "latin-1 codec cannot encode characters").status_code =
      500 :=
  ⟨rfl, rfl, rfl⟩

/-- C8 amended: whenever the query substring (after the first question
mark, when present) is latin-1 encodable, translation succeeds and the
scope carries the method as received, the fixed /mcp mount path, the
raw-byte query encoding (empty when the URL has no question mark), the
static scheme http, server (localhost, 7071) and http version 1.1, and the
header list produced by the encoding loop; when moreover every header
lower-cased name and value is latin-1 encodable, that list is exactly the
lower-cased byte-encoded headers in their original order.  (Latin-1
failures — query encode raising to the 500 response, header encode
truncating the list — are the failure modes the original totality claim
misses.) -/
theorem c8_translate_components (req : HttpRequest)
    (hq : ∀ q, afterFirst (Char.ofNat 63) req.url.data = some q →
      latin1Encodable q = true) :
    (∃ s, translate req = .ok s ∧
      s.method = req.method ∧ s.path = "/mcp" ∧ s.type = "http" ∧
      s.http_version = "1.1" ∧ s.scheme = "http" ∧
      s.server = ("localhost", 7071) ∧
      s.headers = buildScopeHeaders req.headers ∧
      s.query_string =
        (match afterFirst (Char.ofNat 63) req.url.data with
         | some q => q.map Char.toNat
         | none => [])) ∧
    ((∀ p ∈ req.headers, latin1Encodable (lowerStr p.1).data = true ∧
        latin1Encodable p.2.data = true) →
      buildScopeHeaders req.headers =
        req.headers.map (fun p =>
          ((lowerStr p.1).data.map Char.toNat,
           p.2.data.map Char.toNat))) := by
  constructor
  · rcases hsplit : afterFirst (Char.ofNat 63) req.url.data with _ | q
    · have hok : translate req =
          Except.ok { type := "http", http_version := "1.1",
                      method := req.method, scheme := "http",
                      path := "/mcp", query_string := [], root_path := "",
                      headers := buildScopeHeaders req.headers,
                      server := ("localhost", 7071) } := by
        rw [translate, hsplit]
      exact ⟨_, hok, rfl, rfl, rfl, rfl, rfl, rfl, rfl, rfl⟩
    · have henc := hq q hsplit
      have he : encodeLatin1 q = .ok (q.map Char.toNat) := by
        rw [encodeLatin1, if_pos henc]
      have hok : translate req =
          Except.ok { type := "http", http_version := "1.1",
                      method := req.method, scheme := "http",
                      path := "/mcp", query_string := q.map Char.toNat,
                      root_path := "",
                      headers := buildScopeHeaders req.headers,
                      server := ("localhost", 7071) } := by
        simp only [translate, hsplit, he]
      exact ⟨_, hok, rfl, rfl, rfl, rfl, rfl, rfl, rfl, rfl⟩
  · exact buildScopeHeaders_total req.headers

/-- C8 witness for the amended statement: a POST with a query string and
two ASCII headers. -/
theorem c8_witness :
    (∀ q, afterFirst (Char.ofNat 63)
        "http://x/api/mcp?a=b&c=d".data = some q →
      latin1Encodable q = true) ∧
    (∃ s, translate (HttpRequest.mk "POST" "http://x/api/mcp?a=b&c=d"
        [("Content-Type", "application/json"), ("X-Key", "v1")] [1, 2]) =
          .ok s ∧
      s.method = "POST" ∧ s.path = "/mcp" ∧ s.type = "http" ∧
      s.http_version = "1.1" ∧ s.scheme = "http" ∧
      s.server = ("localhost", 7071) ∧
      s.headers = buildScopeHeaders
        [("Content-Type", "application/json"), ("X-Key", "v1")] ∧
      s.query_string =
        (match afterFirst (Char.ofNat 63)
            "http://x/api/mcp?a=b&c=d".data with
         | some q => q.map Char.toNat
         | none => [])) :=
  ⟨by decide,
   ((c8_translate_components
      (HttpRequest.mk "POST" "http://x/api/mcp?a=b&c=d"
        [("Content-Type", "application/json"), ("X-Key", "v1")] [1, 2])
      (by decide)).1)⟩

end FunctionApp
